import Mathlib

/-!
Shallow embedding of `git-stat` (src/main.go): per-day aggregation of git
commit statistics and rendering of a gap-aware fixed-width table.
Strings are ASCII here, so Go's byte-indexed slicing and `len` coincide
with `String.length` over characters.
-/

namespace GitStat

/-- A run of `n` space characters, as produced by `strings.Repeat(" ", n)`. -/
def spaces (n : Nat) : String :=
  String.mk (List.replicate n ' ')

/-- Go's byte-slice truncation `text[:n]` (ASCII strings). -/
def strTake (s : String) (n : Nat) : String :=
  String.mk (s.data.take n)

/-- A calendar date, the fields Go's `time.Time` exposes for day formatting. -/
structure Date where
  year : Int
  month : Nat
  day : Nat
deriving DecidableEq, Repr

/-- Two-digit zero-padded field, as Go's layouts `01` / `02` render it. -/
def pad2 (n : Nat) : String :=
  if n < 10 then "0" ++ Nat.repr n else Nat.repr n

/-- Four-digit zero-padded number, as Go's layout `2006` renders a year. -/
def pad4 (n : Nat) : String :=
  if n < 10 then "000" ++ Nat.repr n
  else if n < 100 then "00" ++ Nat.repr n
  else if n < 1000 then "0" ++ Nat.repr n
  else Nat.repr n

def formatYear (y : Int) : String :=
  if y < 0 then "-" ++ pad4 y.natAbs else pad4 y.toNat

/-- Go `t.Format("2006-01-02")`. -/
def formatYMD (dt : Date) : String :=
  formatYear dt.year ++ "-" ++ pad2 dt.month ++ "-" ++ pad2 dt.day

/-- Go `t.Format("01-02")`. -/
def formatMD (dt : Date) : String :=
  pad2 dt.month ++ "-" ++ pad2 dt.day

/-- Civil date of a day number (days since 1970-01-01, proleptic Gregorian). -/
def civilFromDays (z : Int) : Date :=
  let z' := z + 719468
  let era := z'.ediv 146097
  let doe := (z' - era * 146097).toNat
  let yoe := (doe - doe / 1460 + doe / 36524 - doe / 146096) / 365
  let y : Int := (yoe : Int) + era * 400
  let doy := doe - (365 * yoe + yoe / 4 - yoe / 100)
  let mp := (5 * doy + 2) / 153
  let d := doy - (153 * mp + 2) / 5 + 1
  let m := if mp < 10 then mp + 3 else mp - 9
  { year := y + (if m ≤ 2 then 1 else 0), month := m, day := d }

/-- Day number of a civil date, inverse of `civilFromDays`. -/
def daysFromCivil (dt : Date) : Int :=
  let y := dt.year - (if dt.month ≤ 2 then 1 else 0)
  let era := y.ediv 400
  let yoe := (y - era * 400).toNat
  let mp := if 3 ≤ dt.month then dt.month - 3 else dt.month + 9
  let doy := (153 * mp + 2) / 5 + dt.day - 1
  let doe := yoe * 365 + yoe / 4 - yoe / 100 + doy
  era * 146097 + (doe : Int) - 719468

/-- A git timestamp: a UTC instant plus the zone offset it was written in.
Go formats a `time.Time` in its own location, i.e. at `epochSecs + offsetSecs`
wall-clock seconds. -/
structure Timestamp where
  epochSecs : Int
  offsetSecs : Int
deriving DecidableEq, Repr

/-- Go `t.Format("2006-01-02")` for a zoned timestamp: the civil date of the
wall clock in the timestamp's own offset. -/
def tsFormatDate (t : Timestamp) : String :=
  formatYMD (civilFromDays ((t.epochSecs + t.offsetSecs).ediv 86400))

structure Signature where
  name : String
  email : String
  when : Timestamp
deriving DecidableEq, Repr

/-- One entry of `object.FileStats`: per-file added/deleted line counts. -/
structure FileStat where
  name : String
  addition : Int
  deletion : Int
deriving DecidableEq, Repr

structure Commit where
  author : Signature
  committer : Signature
  stats : List FileStat
deriving DecidableEq, Repr

/-- `DailyStats` from main.go; the Go `map[string]struct{}` set of file
names is a `Finset`. -/
structure DailyStats where
  FilesChanged : Finset String
  Additions : Int
  Deletions : Int
deriving DecidableEq

/-- The `map[string]*DailyStats` built by `getGitStats`. -/
def DayStatsIndex := String → Option DailyStats

def emptyDailyStats : DailyStats :=
  { FilesChanged := ∅, Additions := 0, Deletions := 0 }

/-- One iteration of the `for _, stat := range stats` loop body. -/
def addFileStat (ds : DailyStats) (s : FileStat) : DailyStats :=
  { FilesChanged := insert s.name ds.FilesChanged
    Additions := ds.Additions + s.addition
    Deletions := ds.Deletions + s.deletion }

def applyStats (ds : DailyStats) (stats : List FileStat) : DailyStats :=
  stats.foldl addFileStat ds

/-- `c.Author.When.Format("2006-01-02")`: the bucketing key of a commit. -/
def commitKey (c : Commit) : String :=
  tsFormatDate c.author.when

/-- The body of the `commits.ForEach` callback: create the day's entry if
missing, then fold the commit's per-file stats into it. -/
def stepCommit (m : DayStatsIndex) (c : Commit) : DayStatsIndex :=
  let key := commitKey c
  let base := (m key).getD emptyDailyStats
  fun k => if k = key then some (applyStats base c.stats) else m k

/-- The aggregation loop of `getGitStats` over an in-range commit list. -/
def getGitStats (commits : List Commit) : DayStatsIndex :=
  commits.foldl stepCommit (fun _ => none)

/-! ### Table layout (column constants, centerText, padText) -/

def colorReset : String := "\x1b[0m"
def colorOrange : String := "\x1b[38;5;208m"
def colorCyan : String := "\x1b[36m"

def dateRangeWidth : Nat := 25
def filesChangedWidth : Nat := 15
def additionsWidth : Nat := 11
def deletionsWidth : Nat := 11
def totalChangesWidth : Nat := 15

/-- `totalWidth` as computed in main.go: the five widths plus 4 separators. -/
def totalWidth : Nat :=
  dateRangeWidth + filesChangedWidth + additionsWidth + deletionsWidth + totalChangesWidth + 4

/-- `centerText` from main.go: truncate at `width`, else pad both sides. -/
def centerText (text : String) (width : Nat) : String :=
  if width ≤ text.length then strTake text width
  else
    let leftPad := (width - text.length) / 2
    let rightPad := width - text.length - leftPad
    spaces leftPad ++ text ++ spaces rightPad

/-- `padText` from main.go: truncate at `width`, else pad on the right. -/
def padText (text : String) (width : Nat) : String :=
  if width ≤ text.length then strTake text width
  else text ++ spaces (width - text.length)

/-- Go's `%d` of an `int`. -/
def intStr (n : Int) : String := toString n

/-- `formatDateRange` from main.go. -/
def formatDateRange (startDate endDate : Date) : String :=
  let startStr := formatYMD startDate
  if startDate.year = endDate.year then startStr ++ " ~ " ++ formatMD endDate
  else startStr ++ " ~ " ++ formatYMD endDate

/-- The header line printed by `printTableHeader`. -/
def headerLine : String :=
  centerText "Date Range" dateRangeWidth ++ "|" ++
  centerText "Files Changed" filesChangedWidth ++ "|" ++
  centerText "Additions" additionsWidth ++ "|" ++
  centerText "Deletions" deletionsWidth ++ "|" ++
  centerText "Total Changes" totalChangesWidth

/-- The row line printed by `printTableRow`. -/
def tableRowLine (dateRange : String) (filesChanged additions deletions totalChanges : Int) :
    String :=
  padText dateRange dateRangeWidth ++ "|" ++
  centerText (intStr filesChanged) filesChangedWidth ++ "|" ++
  centerText (intStr additions) additionsWidth ++ "|" ++
  centerText (intStr deletions) deletionsWidth ++ "|" ++
  centerText (intStr totalChanges) totalChangesWidth

/-- The `"%d %s no commits"` message built by `printNoChangeRow`. -/
def gapMessage (days : Int) : String :=
  intStr days ++ " " ++ (if days > 1 then "days" else "day") ++ " no commits"

/-- The colored row line printed by `printNoChangeRow` (its middle `Printf`). -/
def noChangeRowLine (dateRange : String) (days : Int) : String :=
  colorOrange ++ padText dateRange dateRangeWidth ++ colorReset ++ "|" ++
  colorOrange ++ centerText (gapMessage days) (totalWidth - dateRangeWidth - 1) ++ colorReset

/-! ### The rendering loop of `main` -/

/-- One report row: an active day, or a collapsed run of inactive days.
Days are day numbers (days since 1970-01-01). -/
inductive Row where
  | active (day : Int) (filesChanged : Nat) (additions deletions totalChanges : Int)
  | gap (startDay endDay : Int) (days : Int)
deriving DecidableEq, Repr

/-- `d.Format("2006-01-02")` for the loop variable `d` (a UTC midnight). -/
def dayKey (d : Int) : String := formatYMD (civilFromDays d)

def lookupDay (idx : DayStatsIndex) (d : Int) : Option DailyStats := idx (dayKey d)

/-- The date-range loop of `main` (lines 204-225), with `n` days left to
visit starting at day `d`; `gs`/`gd` are `noChangeStartDate`/`noChangeDays`. -/
def renderAux (idx : DayStatsIndex) : Nat → Int → Int → Int → List Row
  | 0, d, gs, gd => if gd > 0 then [Row.gap gs (d - 1) gd] else []
  | Nat.succ n, d, gs, gd =>
    match lookupDay idx d with
    | none => renderAux idx n (d + 1) (if gd = 0 then d else gs) (gd + 1)
    | some stats =>
      (if gd > 0 then [Row.gap gs (d - 1) gd] else []) ++
      Row.active d stats.FilesChanged.card stats.Additions stats.Deletions
        (stats.Additions + stats.Deletions) :: renderAux idx n (d + 1) gs 0

/-- The rows emitted for the inclusive day range `[s, e]`. -/
def renderRows (idx : DayStatsIndex) (s e : Int) : List Row :=
  renderAux idx (e + 1 - s).toNat s 0 0

/-- The line printed for a row (colors and separator rules aside). -/
def rowLine : Row → String
  | Row.active d fc a del t => tableRowLine (dayKey d) fc a del t
  | Row.gap a b k => noChangeRowLine (formatDateRange (civilFromDays a) (civilFromDays b)) k

/-! ### CLI validation (`parseDate` and the head of `main`) -/

/-- Go `time.Parse("2006-01-02", s)`: exactly `YYYY-MM-DD` with a 4-digit
year, in-range month and in-range day for that month. -/
def parseDate (s : String) : Option Date :=
  match s.data with
  | [y1, y2, y3, y4, h1, m1, m2, h2, d1, d2] =>
    if y1.isDigit && y2.isDigit && y3.isDigit && y4.isDigit && h1 == '-' &&
       m1.isDigit && m2.isDigit && h2 == '-' && d1.isDigit && d2.isDigit then
      let y : Nat := ((y1.toNat * 10 + y2.toNat) * 10 + y3.toNat) * 10 + y4.toNat - 1111 * '0'.toNat
      let m : Nat := m1.toNat * 10 + m2.toNat - 11 * '0'.toNat
      let d : Nat := d1.toNat * 10 + d2.toNat - 11 * '0'.toNat
      if 1 ≤ m ∧ m ≤ 12 then
        if 1 ≤ d ∧ d ≤ daysInMonth (y : Int) m then some ⟨(y : Int), m, d⟩ else none
      else none
    else none
  | _ => none
where
  isLeapYear (y : Int) : Bool := (y % 4 == 0 && y % 100 != 0) || y % 400 == 0
  daysInMonth (y : Int) (m : Nat) : Nat :=
    match m with
    | 1 => 31 | 2 => if isLeapYear y then 29 else 28 | 3 => 31 | 4 => 30 | 5 => 31
    | 6 => 30 | 7 => 31 | 8 => 31 | 9 => 30 | 10 => 31 | 11 => 30 | 12 => 31
    | _ => 0

/-- `endDate.Before(startDate)` for parsed (midnight) dates. -/
def dateLt (a b : Date) : Bool :=
  a.year < b.year || (a.year == b.year &&
    (a.month < b.month || (a.month == b.month && a.day < b.day)))

/-- Outcome of the argument-validation prefix of `main` (lines 159-185). -/
inductive CliResult where
  | exitUsage
  | exitBadStartDate
  | exitBadEndDate
  | exitEndBeforeStart
  | run (repoPath : String) (startDate endDate : Date)
deriving DecidableEq, Repr

def validateArgs (args : List String) : CliResult :=
  match args with
  | [_prog, repoPath, startStr, endStr] =>
    match parseDate startStr with
    | none => CliResult.exitBadStartDate
    | some sd =>
      match parseDate endStr with
      | none => CliResult.exitBadEndDate
      | some ed =>
        if dateLt ed sd then CliResult.exitEndBeforeStart
        else CliResult.run repoPath sd ed
  | _ => CliResult.exitUsage

/-- `main` with the repository as an oracle from path to commit list
(`none` models any open/log/stats failure): exit code plus emitted rows.
Every early exit is code 1 with no rows. -/
def mainModel (repoFS : String → Option (List Commit)) (args : List String) :
    Int × List Row :=
  match validateArgs args with
  | CliResult.run repoPath sd ed =>
    match repoFS repoPath with
    | none => (1, [])
    | some commits =>
      (0, renderRows (getGitStats commits) (daysFromCivil sd) (daysFromCivil ed))
  | _ => (1, [])

/-! ### Closed-form view of the aggregation, and concrete scenario data -/

/-- The commits of `l` whose bucketing key is `key`. -/
def commitsOn (l : List Commit) (key : String) : List Commit :=
  l.filter (fun c => commitKey c == key)

/-- All per-file delta entries of a commit list, in order. -/
def statsOf (cs : List Commit) : List FileStat :=
  (cs.map Commit.stats).flatten

/-- Closed form of the day entry built by `getGitStats`. -/
def dayStatsSpec (l : List Commit) (key : String) : Option DailyStats :=
  if commitsOn l key = [] then none
  else some
    { FilesChanged := ((statsOf (commitsOn l key)).map FileStat.name).toFinset
      Additions := ((statsOf (commitsOn l key)).map FileStat.addition).sum
      Deletions := ((statsOf (commitsOn l key)).map FileStat.deletion).sum }

/-- 2023-05-05 00:00:00 UTC. -/
def scn5ts : Timestamp := ⟨1683244800, 0⟩

def scn5c1 : Commit := ⟨⟨"a", "a@x", scn5ts⟩, ⟨"a", "a@x", scn5ts⟩, [⟨"app.txt", 3, 1⟩]⟩

def scn5c2 : Commit := ⟨⟨"b", "b@x", scn5ts⟩, ⟨"b", "b@x", scn5ts⟩, [⟨"app.txt", 5, 0⟩]⟩

/-! ### Row spans and the tiling invariant of the rendering loop -/

def rowLo : Row → Int
  | Row.active d _ _ _ _ => d
  | Row.gap s _ _ => s

def rowHi : Row → Int
  | Row.active d _ _ _ _ => d
  | Row.gap _ e _ => e

/-- How many calendar days a row accounts for: 1 for an active day, the
stored count for a gap. -/
def rowDays : Row → Int
  | Row.active _ _ _ _ _ => 1
  | Row.gap _ _ k => k

/-- `tiles lo hi rows`: the rows' spans exactly partition the inclusive
interval `[lo, hi]`, in ascending order, each row's day count matching its
span. -/
def tiles : Int → Int → List Row → Prop
  | lo, hi, [] => lo = hi + 1
  | lo, hi, r :: rs =>
    rowLo r = lo ∧ lo ≤ rowHi r ∧ rowHi r ≤ hi ∧ rowDays r = rowHi r - lo + 1 ∧
      tiles (rowHi r + 1) hi rs

/-! ### Helper lemmas: aggregation -/

theorem applyStats_eq (stats : List FileStat) : ∀ ds : DailyStats,
    applyStats ds stats =
      { FilesChanged := ds.FilesChanged ∪ (stats.map FileStat.name).toFinset
        Additions := ds.Additions + (stats.map FileStat.addition).sum
        Deletions := ds.Deletions + (stats.map FileStat.deletion).sum } := by
  induction stats with
  | nil => intro ds; simp [applyStats]
  | cons f fs ih =>
    intro ds
    have h1 : applyStats ds (f :: fs) = applyStats (addFileStat ds f) fs := rfl
    rw [h1, ih]
    simp [addFileStat, Finset.insert_union, Finset.union_insert, add_assoc]

theorem getGitStats_append_single (l : List Commit) (c : Commit) :
    getGitStats (l ++ [c]) = stepCommit (getGitStats l) c := by
  simp [getGitStats, List.foldl_append]

theorem commitsOn_append_single (l : List Commit) (c : Commit) (key : String) :
    commitsOn (l ++ [c]) key =
      commitsOn l key ++ (if commitKey c = key then [c] else []) := by
  simp only [commitsOn, List.filter_append]
  congr 1
  by_cases h : commitKey c = key
  · simp [List.filter, h]
  · have hb : (commitKey c == key) = false := by simp [h]
    simp [List.filter, hb, h]

theorem statsOf_append (cs ds : List Commit) :
    statsOf (cs ++ ds) = statsOf cs ++ statsOf ds := by
  simp [statsOf]

/-- Appending one commit updates the closed form at that commit's key. -/
theorem dayStatsSpec_append_single (l : List Commit) (c : Commit) :
    dayStatsSpec (l ++ [c]) (commitKey c) =
      some (applyStats ((dayStatsSpec l (commitKey c)).getD emptyDailyStats) c.stats) := by
  by_cases hnil : commitsOn l (commitKey c) = []
  · simp only [dayStatsSpec, commitsOn_append_single, if_pos rfl, hnil, if_pos rfl,
      List.nil_append, Option.getD_none]
    rw [if_neg (by simp)]
    rw [applyStats_eq]
    simp [emptyDailyStats, statsOf]
  · simp only [dayStatsSpec, commitsOn_append_single, if_pos rfl, if_neg hnil,
      Option.getD_some]
    rw [if_neg (by simp [hnil])]
    rw [applyStats_eq]
    simp [statsOf_append, statsOf, List.toFinset_append]

/-- The aggregation map agrees everywhere with its closed form. -/
theorem getGitStats_eq_spec (l : List Commit) :
    ∀ key, getGitStats l key = dayStatsSpec l key := by
  induction l using List.reverseRecOn with
  | nil =>
    intro key
    simp [getGitStats, dayStatsSpec, commitsOn]
  | append_singleton l c ih =>
    intro key
    rw [getGitStats_append_single]
    by_cases hk : key = commitKey c
    · subst hk
      have hstep : stepCommit (getGitStats l) c (commitKey c) =
          some (applyStats ((getGitStats l (commitKey c)).getD emptyDailyStats) c.stats) := by
        simp [stepCommit]
      rw [hstep, ih (commitKey c), dayStatsSpec_append_single]
    · have hstep : stepCommit (getGitStats l) c key = getGitStats l key := by
        simp [stepCommit, if_neg hk]
      rw [hstep, ih key]
      unfold dayStatsSpec
      rw [commitsOn_append_single,
        if_neg (show ¬commitKey c = key from fun h => hk h.symm), List.append_nil]

/-- `stepCommit` is right-commutative, so folding it is order-independent. -/
theorem stepCommit_rightComm (m : DayStatsIndex) (a b : Commit) :
    stepCommit (stepCommit m a) b = stepCommit (stepCommit m b) a := by
  funext k
  by_cases hab : commitKey a = commitKey b
  · by_cases hk : k = commitKey b
    · simp only [stepCommit, hab, hk, if_pos rfl, Option.getD_some]
      rw [applyStats_eq, applyStats_eq, applyStats_eq, applyStats_eq]
      simp only [Option.some.injEq, DailyStats.mk.injEq]
      exact ⟨Finset.union_right_comm _ _ _, add_right_comm _ _ _, add_right_comm _ _ _⟩
    · simp [stepCommit, hab, hk]
  · have hba : ¬commitKey b = commitKey a := fun h => hab h.symm
    by_cases hka : k = commitKey a <;> by_cases hkb : k = commitKey b
    · exact absurd (hka.symm.trans hkb) hab
    · simp [stepCommit, hka, hkb, hab, hba]
    · simp [stepCommit, hka, hkb, hab, hba]
    · simp [stepCommit, hka, hkb]

theorem tiles_nil (lo hi : Int) : tiles lo hi [] ↔ lo = hi + 1 := Iff.rfl

theorem tiles_cons (lo hi : Int) (r : Row) (rs : List Row) :
    tiles lo hi (r :: rs) ↔
      rowLo r = lo ∧ lo ≤ rowHi r ∧ rowHi r ≤ hi ∧ rowDays r = rowHi r - lo + 1 ∧
        tiles (rowHi r + 1) hi rs := Iff.rfl

theorem tiles_sum : ∀ (rows : List Row) (lo hi : Int), tiles lo hi rows →
    (rows.map rowDays).sum = hi + 1 - lo := by
  intro rows
  induction rows with
  | nil =>
    intro lo hi h
    rw [tiles_nil] at h
    simp [h]
  | cons r rs ih =>
    intro lo hi h
    rw [tiles_cons] at h
    obtain ⟨h1, h2, h3, h4, h5⟩ := h
    simp only [List.map_cons, List.sum_cons]
    rw [ih _ _ h5, h4]
    ring

/-- Loop invariant: with `n` days left starting at `d` and gap state
`(gs, gd)`, the emitted rows tile from the open gap's start (or `d`) up to
the last day of the range. -/
theorem renderAux_tiles (idx : DayStatsIndex) : ∀ (n : Nat) (d gs gd : Int),
    gd = 0 ∨ (0 < gd ∧ gs + gd = d) →
    tiles (if gd = 0 then d else gs) (d + n - 1) (renderAux idx n d gs gd) := by
  intro n
  induction n with
  | zero =>
    intro d gs gd hinv
    rcases hinv with h0 | ⟨hpos, hsum⟩
    · subst h0
      simp only [renderAux, if_neg (lt_irrefl (0 : Int)), if_pos rfl]
      rw [tiles_nil]
      push_cast
      ring
    · simp only [renderAux, if_pos hpos, if_neg (by omega : ¬gd = 0)]
      rw [tiles_cons, tiles_nil]
      refine ⟨rfl, by simp only [rowHi]; omega, by simp only [rowHi]; omega, ?_, ?_⟩
      · simp only [rowDays, rowHi]
        omega
      · simp only [rowHi]
        push_cast
        omega
  | succ n ih =>
    intro d gs gd hinv
    cases hlk : lookupDay idx d with
    | none =>
      simp only [renderAux, hlk]
      have hinv' : gd + 1 = 0 ∨ (0 < gd + 1 ∧ (if gd = 0 then d else gs) + (gd + 1) = d + 1) := by
        rcases hinv with h0 | ⟨hpos, hsum⟩
        · right
          simp [h0]
        · right
          rw [if_neg (by omega : ¬gd = 0)]
          omega
      have h2 := ih (d + 1) (if gd = 0 then d else gs) (gd + 1) hinv'
      rw [if_neg (by omega : ¬gd + 1 = 0)] at h2
      have hb : d + 1 + (n : Int) - 1 = d + ((n : Int) + 1) - 1 := by ring
      rw [hb] at h2
      push_cast
      exact h2
    | some stats =>
      simp only [renderAux, hlk]
      have hrest := ih (d + 1) gs 0 (Or.inl rfl)
      rw [if_pos rfl] at hrest
      have hb : d + 1 + (n : Int) - 1 = d + ((n : Int) + 1) - 1 := by ring
      rw [hb] at hrest
      rcases hinv with h0 | ⟨hpos, hsum⟩
      · subst h0
        rw [if_neg (lt_irrefl (0 : Int)), List.nil_append, if_pos rfl]
        rw [tiles_cons]
        push_cast
        refine ⟨rfl, le_refl d, by have := Int.natCast_nonneg n; simp [rowHi]; omega, by simp only [rowDays, rowHi]; omega, ?_⟩
        simp only [rowHi]
        exact hrest
      · rw [if_pos hpos, if_neg (by omega : ¬gd = 0), List.cons_append, List.nil_append]
        rw [tiles_cons]
        push_cast
        refine ⟨rfl, by simp only [rowHi]; omega, by have := Int.natCast_nonneg n; simp [rowHi]; omega, by simp only [rowDays, rowHi]; omega, ?_⟩
        simp only [rowHi]
        rw [tiles_cons]
        have hd : d - 1 + 1 = d := by ring
        rw [hd]
        refine ⟨rfl, le_refl d, by have := Int.natCast_nonneg n; simp [rowHi]; omega, by simp only [rowDays, rowHi]; omega, ?_⟩
        simp only [rowHi]
        exact hrest

/-- The rendered rows of a non-empty range tile exactly `[s, e]`. -/
theorem renderRows_tiles (idx : DayStatsIndex) (s e : Int) (h : s ≤ e) :
    tiles s e (renderRows idx s e) := by
  have hn : ((e + 1 - s).toNat : Int) = e + 1 - s := Int.toNat_of_nonneg (by omega)
  have := renderAux_tiles idx (e + 1 - s).toNat s 0 0 (Or.inl rfl)
  rw [if_pos rfl, hn] at this
  have hb : s + (e + 1 - s) - 1 = e := by ring
  rw [hb] at this
  exact this

/-- An empty range renders no rows. -/
theorem renderRows_of_gt (idx : DayStatsIndex) (s e : Int) (h : e < s) :
    renderRows idx s e = [] := by
  have hn : (e + 1 - s).toNat = 0 := by omega
  rw [renderRows, hn]
  simp [renderAux]

/-- Each row of a tiling spans `rowDays` consecutive days. -/
theorem tiles_mem : ∀ (rows : List Row) (lo hi : Int), tiles lo hi rows →
    ∀ r ∈ rows, rowDays r = rowHi r - rowLo r + 1 ∧ rowLo r ≤ rowHi r := by
  intro rows
  induction rows with
  | nil => intro lo hi _ r hr; cases hr
  | cons r0 rs ih =>
    intro lo hi h r hr
    rw [tiles_cons] at h
    obtain ⟨h1, h2, h3, h4, h5⟩ := h
    rcases List.mem_cons.mp hr with hr0 | hr'
    · subst hr0
      exact ⟨by rw [h1]; exact h4, by rw [h1]; exact h2⟩
    · exact ih _ _ h5 r hr'

/-- If every remaining day is inactive, the loop emits one gap row covering
everything (including any gap already open). -/
theorem renderAux_all_none (idx : DayStatsIndex) : ∀ (n : Nat) (d gs gd : Int),
    0 ≤ gd →
    0 < n ∨ 0 < gd →
    (∀ x : Int, d ≤ x → x < d + n → lookupDay idx x = none) →
    renderAux idx n d gs gd =
      [Row.gap (if gd = 0 then d else gs) (d + n - 1) (gd + n)] := by
  intro n
  induction n with
  | zero =>
    intro d gs gd hge hne hnone
    rcases hne with h | h
    · omega
    · simp only [renderAux, if_pos h, if_neg (by omega : ¬gd = 0)]
      push_cast
      norm_num
  | succ n ih =>
    intro d gs gd hge hne hnone
    have hd : lookupDay idx d = none := hnone d le_rfl (by push_cast; omega)
    simp only [renderAux, hd]
    have hnone' : ∀ x : Int, d + 1 ≤ x → x < d + 1 + n → lookupDay idx x = none := by
      intro x h1 h2
      exact hnone x (by omega) (by push_cast at h2 ⊢; omega)
    rw [ih (d + 1) (if gd = 0 then d else gs) (gd + 1) (by omega) (Or.inr (by omega)) hnone']
    rw [if_neg (by omega : ¬gd + 1 = 0)]
    congr 1
    rw [Row.gap.injEq]
    refine ⟨rfl, by push_cast; ring, by push_cast; ring⟩

/-- If every remaining day is active and no gap is open, no gap row is
emitted. -/
theorem renderAux_no_gap (idx : DayStatsIndex) : ∀ (n : Nat) (d gs : Int),
    (∀ x : Int, d ≤ x → x < d + n → lookupDay idx x ≠ none) →
    ∀ a b k, Row.gap a b k ∉ renderAux idx n d gs 0 := by
  intro n
  induction n with
  | zero => intro d gs _ a b k; simp [renderAux]
  | succ n ih =>
    intro d gs hsome a b k
    cases hlk : lookupDay idx d with
    | none => exact absurd hlk (hsome d le_rfl (by push_cast; omega))
    | some stats =>
      simp only [renderAux, hlk, if_neg (lt_irrefl (0 : Int)), List.nil_append]
      intro hmem
      rcases List.mem_cons.mp hmem with h | h
      · cases h
      · exact ih (d + 1) gs
          (fun x h1 h2 => hsome x (by omega) (by push_cast at h2 ⊢; omega)) a b k h

/-- Every gap row the loop emits covers a maximal run of inactive days:
all covered days are inactive and each boundary is the range edge or an
active day. -/
theorem renderAux_gap_maximal (idx : DayStatsIndex) (s e : Int) :
    ∀ (n : Nat) (d gs gd : Int),
      d + n - 1 = e →
      (gd = 0 → (d = s ∨ lookupDay idx (d - 1) ≠ none)) →
      (gd = 0 ∨ (0 < gd ∧ gs + gd = d ∧
        (∀ x, gs ≤ x → x < d → lookupDay idx x = none) ∧
        (gs = s ∨ lookupDay idx (gs - 1) ≠ none))) →
      ∀ a b k, Row.gap a b k ∈ renderAux idx n d gs gd →
        (∀ x, a ≤ x → x ≤ b → lookupDay idx x = none) ∧
        (a = s ∨ lookupDay idx (a - 1) ≠ none) ∧
        (b = e ∨ lookupDay idx (b + 1) ≠ none) := by
  intro n
  induction n with
  | zero =>
    intro d gs gd he hleft hinv a b k hmem
    rcases hinv with h0 | ⟨hpos, hsum, hnone, hbound⟩
    · subst h0
      simp [renderAux] at hmem
    · simp only [renderAux, if_pos hpos] at hmem
      have h := List.mem_singleton.mp hmem
      rw [Row.gap.injEq] at h
      obtain ⟨ha, hb, hk⟩ := h
      subst ha; subst hb
      push_cast at he
      exact ⟨fun x h1 h2 => hnone x h1 (by omega), hbound, Or.inl (by omega)⟩
  | succ n ih =>
    intro d gs gd he hleft hinv a b k hmem
    cases hlk : lookupDay idx d with
    | none =>
      simp only [renderAux, hlk] at hmem
      rcases hinv with h0 | ⟨hpos, hsum, hnone, hbound⟩
      · refine ih (d + 1) (if gd = 0 then d else gs) (gd + 1)
          (by push_cast at he ⊢; omega) (by omega) ?_ a b k hmem
        right
        subst h0
        rw [if_pos rfl]
        refine ⟨by omega, by omega, ?_, hleft rfl⟩
        intro x h1 h2
        have hx : x = d := by omega
        subst hx
        exact hlk
      · refine ih (d + 1) (if gd = 0 then d else gs) (gd + 1)
          (by push_cast at he ⊢; omega) (by omega) ?_ a b k hmem
        right
        rw [if_neg (by omega : ¬gd = 0)]
        refine ⟨by omega, by omega, ?_, hbound⟩
        intro x h1 h2
        by_cases hx : x < d
        · exact hnone x h1 hx
        · have hx' : x = d := by omega
          subst hx'
          exact hlk
    | some stats =>
      simp only [renderAux, hlk] at hmem
      rcases hinv with h0 | ⟨hpos, hsum, hnone, hbound⟩
      · subst h0
        rw [if_neg (lt_irrefl (0 : Int)), List.nil_append] at hmem
        rcases List.mem_cons.mp hmem with h | h
        · cases h
        · refine ih (d + 1) gs 0 (by push_cast at he ⊢; omega) ?_ (Or.inl rfl) a b k h
          intro _
          right
          rw [show d + 1 - 1 = d by ring]
          simp [hlk]
      · rw [if_pos hpos, List.cons_append, List.nil_append] at hmem
        rcases List.mem_cons.mp hmem with h | h
        · rw [Row.gap.injEq] at h
          obtain ⟨ha, hb, hk⟩ := h
          subst ha; subst hb
          refine ⟨fun x h1 h2 => hnone x h1 (by omega), hbound, Or.inr ?_⟩
          rw [show d - 1 + 1 = d by ring]
          simp [hlk]
        · rcases List.mem_cons.mp h with h2 | h2
          · cases h2
          · refine ih (d + 1) gs 0 (by push_cast at he ⊢; omega) ?_ (Or.inl rfl) a b k h2
            intro _
            right
            rw [show d + 1 - 1 = d by ring]
            simp [hlk]

/-- Top-level maximality: every gap row of `renderRows` covers only
inactive days and is bounded by the range edges or active days. -/
theorem renderRows_gap_maximal (idx : DayStatsIndex) (s e a b k : Int)
    (hmem : Row.gap a b k ∈ renderRows idx s e) :
    (∀ x, a ≤ x → x ≤ b → lookupDay idx x = none) ∧
    (a = s ∨ lookupDay idx (a - 1) ≠ none) ∧
    (b = e ∨ lookupDay idx (b + 1) ≠ none) := by
  by_cases hse : s ≤ e
  · have hn : (((e + 1 - s).toNat : Int)) = e + 1 - s := Int.toNat_of_nonneg (by omega)
    exact renderAux_gap_maximal idx s e (e + 1 - s).toNat s 0 0
      (by rw [hn]; ring) (fun _ => Or.inl rfl) (Or.inl rfl) a b k hmem
  · rw [renderRows_of_gt idx s e (by omega)] at hmem
    cases hmem

/-- Every gap row of `renderRows` has a positive day count matching its
span. -/
theorem renderRows_gap_pos (idx : DayStatsIndex) (s e a b k : Int)
    (hmem : Row.gap a b k ∈ renderRows idx s e) :
    k = b - a + 1 ∧ a ≤ b := by
  by_cases hse : s ≤ e
  · have ht := renderRows_tiles idx s e hse
    have := tiles_mem _ _ _ ht _ hmem
    simpa [rowDays, rowLo, rowHi] using this
  · rw [renderRows_of_gt idx s e (by omega)] at hmem
    cases hmem


/-! ### Helper lemmas: strings and layout -/

theorem spaces_length (n : Nat) : (spaces n).length = n := by
  show (List.replicate n ' ').length = n
  exact List.length_replicate n ' '

theorem strTake_length (s : String) (n : Nat) : (strTake s n).length = min n s.length := by
  show (s.data.take n).length = min n s.data.length
  exact List.length_take n s.data

theorem centerText_length (t : String) (w : Nat) : (centerText t w).length = w := by
  unfold centerText
  by_cases h : w ≤ t.length
  · rw [if_pos h, strTake_length]
    omega
  · rw [if_neg h]
    simp only [String.length_append, spaces_length]
    omega

theorem padText_length (t : String) (w : Nat) : (padText t w).length = w := by
  unfold padText
  by_cases h : w ≤ t.length
  · rw [if_pos h, strTake_length]
    omega
  · rw [if_neg h]
    simp only [String.length_append, spaces_length]
    omega

theorem centerText_of_ge (t : String) (w : Nat) (h : w ≤ t.length) :
    centerText t w = strTake t w := by
  unfold centerText
  rw [if_pos h]

theorem padText_of_ge (t : String) (w : Nat) (h : w ≤ t.length) :
    padText t w = strTake t w := by
  unfold padText
  rw [if_pos h]

/-- Balanced centering: padding splits into a left and a right part that
differ by at most one, the right part the larger. -/
theorem centerText_centered (t : String) (w : Nat) (h : t.length < w) :
    ∃ l r, centerText t w = spaces l ++ t ++ spaces r ∧
      l + t.length + r = w ∧ l ≤ r ∧ r ≤ l + 1 := by
  refine ⟨(w - t.length) / 2, w - t.length - (w - t.length) / 2, ?_, by omega, by omega, by omega⟩
  unfold centerText
  rw [if_neg (by omega)]

theorem padText_of_lt (t : String) (w : Nat) (h : t.length < w) :
    padText t w = t ++ spaces (w - t.length) := by
  unfold padText
  rw [if_neg (by omega)]

theorem str_append_left_cancel {s t u : String} (h : s ++ t = s ++ u) : t = u := by
  apply String.ext
  have h2 := congrArg String.data h
  simp only [String.data_append] at h2
  exact List.append_cancel_left h2

theorem gapMessage_singular : gapMessage 1 = "1 day no commits" := rfl

theorem gapMessage_plural {k : Int} (h : 1 < k) :
    gapMessage k = intStr k ++ " " ++ "days" ++ " no commits" := by
  unfold gapMessage
  rw [if_pos h]

theorem gapMessage_not_singular {k : Int} (h : 1 < k) :
    gapMessage k ≠ intStr k ++ " " ++ "day" ++ " no commits" := by
  rw [gapMessage_plural h]
  intro hc
  simp only [String.append_assoc] at hc
  have h2 := str_append_left_cancel hc
  have h3 := str_append_left_cancel h2
  exact absurd h3 (by decide)



/-! ### Claim theorems -/

/-- C1: For every calendar day key, the aggregated entry exists exactly when
some commit falls on that day; its additions (resp. deletions) are the sum of
every per-file addition (resp. deletion) count across every commit of that
day, and its changed-files set is the set of distinct touched paths. In
particular, the same file touched by two commits on one day with (+3, -1) and
(+5, -0) yields additions 8, deletions 1, and a one-element file set. -/
theorem claim_C1 :
    (∀ (l : List Commit) (key : String),
        getGitStats l key =
          if commitsOn l key = [] then none
          else some
            { FilesChanged := ((statsOf (commitsOn l key)).map FileStat.name).toFinset
              Additions := ((statsOf (commitsOn l key)).map FileStat.addition).sum
              Deletions := ((statsOf (commitsOn l key)).map FileStat.deletion).sum }) ∧
    getGitStats [scn5c1, scn5c2] "2023-05-05" =
      some { FilesChanged := {"app.txt"}, Additions := 8, Deletions := 1 } := by
  constructor
  · intro l key
    exact getGitStats_eq_spec l key
  · decide

/-- C2: for a range with `s ≤ e` and any index, the emitted rows tile the
inclusive interval `[s, e]` — spans are ascending, adjacent and within
bounds — and their day counts (1 per active row, the stored count per gap
row) sum to `e - s + 1`. -/
theorem claim_C2 (idx : DayStatsIndex) (s e : Int) (h : s ≤ e) :
    tiles s e (renderRows idx s e) ∧
    ((renderRows idx s e).map rowDays).sum = e - s + 1 := by
  have ht := renderRows_tiles idx s e h
  refine ⟨ht, ?_⟩
  rw [tiles_sum _ _ _ ht]
  ring

theorem claim_C2_witness :
    (0 : Int) ≤ 2 ∧
      (tiles 0 2 (renderRows (fun _ => none) 0 2) ∧
        ((renderRows (fun _ => none) 0 2).map rowDays).sum = 2 - 0 + 1) :=
  ⟨by decide, claim_C2 (fun _ => none) 0 2 (by decide)⟩

/-- C6: a commit is bucketed by its author timestamp (changing committer
signatures never changes the aggregation), formatted in the timestamp's own
zone offset: the same UTC instant with offsets 0 and -3600 lands on
1970-01-01 and 1969-12-31 respectively. -/
theorem claim_C6 :
    (∀ c : Commit, commitKey c = tsFormatDate c.author.when) ∧
    (∀ (l : List Commit) (f : Commit → Signature),
        getGitStats (l.map (fun c => { c with committer := f c })) = getGitStats l) ∧
    tsFormatDate ⟨0, 0⟩ = "1970-01-01" ∧
    tsFormatDate ⟨0, -3600⟩ = "1969-12-31" := by
  refine ⟨fun c => rfl, ?_, by decide, by decide⟩
  intro l f
  unfold getGitStats
  rw [List.foldl_map]
  rfl

/-- C9: aggregation is order-independent — permuting the commit list yields
the same day-to-stats mapping. -/
theorem claim_C9 (l1 l2 : List Commit) (h : l1.Perm l2) :
    getGitStats l1 = getGitStats l2 := by
  unfold getGitStats
  exact h.foldl_eq' (fun x _ y _ z => stepCommit_rightComm z x y) _

theorem claim_C9_witness :
    getGitStats [scn5c1, scn5c2] = getGitStats [scn5c2, scn5c1] :=
  claim_C9 [scn5c1, scn5c2] [scn5c2, scn5c1] (by decide)



/-- C3: gap rows collapse exactly the maximal runs of index-less days: every
emitted gap row covers only inactive days and is bounded by the range edges
or by active days; an all-inactive range yields the single gap row spanning
it; an all-active range yields no gap row. -/
theorem claim_C3 :
    (∀ (idx : DayStatsIndex) (s e a b k : Int), Row.gap a b k ∈ renderRows idx s e →
        (∀ x, a ≤ x → x ≤ b → lookupDay idx x = none) ∧
        (a = s ∨ lookupDay idx (a - 1) ≠ none) ∧
        (b = e ∨ lookupDay idx (b + 1) ≠ none)) ∧
    (∀ (idx : DayStatsIndex) (s e : Int), s ≤ e →
        (∀ d, s ≤ d → d ≤ e → lookupDay idx d = none) →
        renderRows idx s e = [Row.gap s e (e - s + 1)]) ∧
    (∀ (idx : DayStatsIndex) (s e : Int),
        (∀ d, s ≤ d → d ≤ e → lookupDay idx d ≠ none) →
        ∀ a b k, Row.gap a b k ∉ renderRows idx s e) := by
  refine ⟨fun idx s e a b k hmem => renderRows_gap_maximal idx s e a b k hmem, ?_, ?_⟩
  · intro idx s e hse hnone
    have hn : (((e + 1 - s).toNat : Int)) = e + 1 - s := Int.toNat_of_nonneg (by omega)
    unfold renderRows
    rw [renderAux_all_none idx (e + 1 - s).toNat s 0 0 le_rfl (Or.inl (by omega))
      (fun x h1 h2 => hnone x h1 (by rw [hn] at h2; omega))]
    rw [if_pos rfl]
    congr 1
    rw [Row.gap.injEq]
    exact ⟨rfl, by rw [hn]; ring, by rw [hn]; ring⟩
  · intro idx s e hsome a b k
    by_cases hse : s ≤ e
    · have hn : (((e + 1 - s).toNat : Int)) = e + 1 - s := Int.toNat_of_nonneg (by omega)
      unfold renderRows
      exact renderAux_no_gap idx (e + 1 - s).toNat s 0
        (fun x h1 h2 => hsome x h1 (by rw [hn] at h2; omega)) a b k
    · rw [renderRows_of_gt idx s e (by omega)]
      exact List.not_mem_nil _

theorem claim_C3_witness :
    ((∀ x, (0 : Int) ≤ x → x ≤ 2 → lookupDay (fun _ => none) x = none) ∧
      ((0 : Int) = 0 ∨ lookupDay (fun _ => none) ((0 : Int) - 1) ≠ none) ∧
      ((2 : Int) = 2 ∨ lookupDay (fun _ => none) ((2 : Int) + 1) ≠ none)) ∧
    renderRows (fun _ => none) 0 2 = [Row.gap 0 2 (2 - 0 + 1)] ∧
    Row.gap 0 0 1 ∉ renderRows (getGitStats [scn5c1]) 19482 19482 := by
  refine ⟨claim_C3.1 (fun _ => none) 0 2 0 2 3 (by decide), ?_, ?_⟩
  · exact claim_C3.2.1 (fun _ => none) 0 2 (by decide) (fun d h1 h2 => rfl)
  · refine claim_C3.2.2 (getGitStats [scn5c1]) 19482 19482 ?_ 0 0 1
    intro d h1 h2
    have hd : d = 19482 := by omega
    rw [hd]
    decide

/-- C4: in every emitted gap row the no-commits message uses the singular
noun exactly when the day count is 1 and the plural otherwise; a single-day
range with no commits yields one 1-day gap row whose message is
"1 day no commits". -/
theorem claim_C4 :
    (∀ (idx : DayStatsIndex) (s e a b k : Int), Row.gap a b k ∈ renderRows idx s e →
        (k = 1 → gapMessage k = "1 day no commits") ∧
        (k ≠ 1 → gapMessage k = intStr k ++ " " ++ "days" ++ " no commits" ∧
          gapMessage k ≠ intStr k ++ " " ++ "day" ++ " no commits")) ∧
    renderRows (fun _ => none) 0 0 = [Row.gap 0 0 1] ∧
    gapMessage 1 = "1 day no commits" := by
  refine ⟨?_, by decide, gapMessage_singular⟩
  intro idx s e a b k hmem
  have hpos := renderRows_gap_pos idx s e a b k hmem
  constructor
  · intro h1
    rw [h1]
    exact gapMessage_singular
  · intro hne
    have hgt : 1 < k := by omega
    exact ⟨gapMessage_plural hgt, gapMessage_not_singular hgt⟩

theorem claim_C4_witness :
    ((1 : Int) = 1 → gapMessage 1 = "1 day no commits") ∧
      ((1 : Int) ≠ 1 → gapMessage 1 = intStr 1 ++ " " ++ "days" ++ " no commits" ∧
        gapMessage 1 ≠ intStr 1 ++ " " ++ "day" ++ " no commits") :=
  claim_C4.1 (fun _ => none) 0 0 0 0 1 (by decide)

/-- C5: a range label is "start ~ end" with the end abbreviated to month-day
exactly when the years agree, otherwise both ends in full form; a one-day gap
row goes through the same range formatter with start = end; concretely,
2023-01-01..2023-01-03 renders as "2023-01-01 ~ 01-03". -/
theorem claim_C5 :
    (∀ s e : Date, s.year = e.year →
        formatDateRange s e = formatYMD s ++ " ~ " ++ formatMD e) ∧
    (∀ s e : Date, s.year ≠ e.year →
        formatDateRange s e = formatYMD s ++ " ~ " ++ formatYMD e) ∧
    (∀ a k : Int, rowLine (Row.gap a a k) =
        noChangeRowLine (formatDateRange (civilFromDays a) (civilFromDays a)) k) ∧
    formatDateRange ⟨2023, 1, 1⟩ ⟨2023, 1, 3⟩ = "2023-01-01 ~ 01-03" := by
  refine ⟨?_, ?_, fun a k => rfl, by decide⟩
  · intro s e h
    unfold formatDateRange
    rw [if_pos h]
  · intro s e h
    unfold formatDateRange
    rw [if_neg h]

theorem claim_C5_witness :
    formatDateRange ⟨2023, 8, 30⟩ ⟨2023, 8, 31⟩ =
        formatYMD ⟨2023, 8, 30⟩ ++ " ~ " ++ formatMD ⟨2023, 8, 31⟩ ∧
      formatDateRange ⟨2023, 12, 31⟩ ⟨2024, 1, 1⟩ =
        formatYMD ⟨2023, 12, 31⟩ ++ " ~ " ++ formatYMD ⟨2024, 1, 1⟩ :=
  ⟨claim_C5.1 ⟨2023, 8, 30⟩ ⟨2023, 8, 31⟩ (by decide),
    claim_C5.2.1 ⟨2023, 12, 31⟩ ⟨2024, 1, 1⟩ (by decide)⟩



/-! ### Helper lemmas: CLI model -/

theorem validateArgs_of_bad_length (args : List String) (hlen : args.length ≠ 4) :
    validateArgs args = CliResult.exitUsage := by
  rcases args with _ | ⟨a, _ | ⟨b, _ | ⟨c, _ | ⟨d, _ | ⟨e, rest⟩⟩⟩⟩⟩
  · rfl
  · rfl
  · rfl
  · rfl
  · simp at hlen
  · rfl

theorem sep_length : ("|" : String).length = 1 := rfl

theorem colorOrange_length : colorOrange.length = 11 := rfl

theorem colorReset_length : colorReset.length = 4 := rfl

/-- C7: wrong argument count, an unparseable date, or an end date strictly
before the start date lead to exit code 1 and no rows, with the repository
oracle never consulted (the outcome is the same for every oracle); equal
start and end dates pass validation. -/
theorem claim_C7 :
    (∀ (repoFS repoFS' : String → Option (List Commit)) (args : List String),
        args.length ≠ 4 →
        mainModel repoFS args = (1, []) ∧ mainModel repoFS args = mainModel repoFS' args) ∧
    (∀ (repoFS repoFS' : String → Option (List Commit)) (prog rp ss es : String),
        (parseDate ss = none ∨ parseDate es = none ∨
          (∃ sd ed, parseDate ss = some sd ∧ parseDate es = some ed ∧ dateLt ed sd = true)) →
        mainModel repoFS [prog, rp, ss, es] = (1, []) ∧
        mainModel repoFS [prog, rp, ss, es] = mainModel repoFS' [prog, rp, ss, es]) ∧
    (∀ (prog rp ds : String) (d : Date), parseDate ds = some d →
        validateArgs [prog, rp, ds, ds] = CliResult.run rp d d) := by
  refine ⟨?_, ?_, ?_⟩
  · intro r r' args hlen
    have hv := validateArgs_of_bad_length args hlen
    have h1 : mainModel r args = (1, []) := by
      unfold mainModel
      rw [hv]
    have h2 : mainModel r' args = (1, []) := by
      unfold mainModel
      rw [hv]
    exact ⟨h1, h1.trans h2.symm⟩
  · intro r r' prog rp ss es hbad
    have hv : validateArgs [prog, rp, ss, es] = CliResult.exitBadStartDate ∨
        validateArgs [prog, rp, ss, es] = CliResult.exitBadEndDate ∨
        validateArgs [prog, rp, ss, es] = CliResult.exitEndBeforeStart := by
      rcases hbad with h | h | ⟨sd, ed, hsd, hed, hlt⟩
      · left
        simp [validateArgs, h]
      · cases hss : parseDate ss with
        | none =>
          left
          simp [validateArgs, hss]
        | some sd =>
          right; left
          simp [validateArgs, hss, h]
      · right; right
        simp [validateArgs, hsd, hed, hlt]
    have h1 : mainModel r [prog, rp, ss, es] = (1, []) := by
      unfold mainModel
      rcases hv with h | h | h <;> rw [h]
    have h2 : mainModel r' [prog, rp, ss, es] = (1, []) := by
      unfold mainModel
      rcases hv with h | h | h <;> rw [h]
    exact ⟨h1, h1.trans h2.symm⟩
  · intro prog rp ds d h
    have hlt : dateLt d d = false := by
      simp [dateLt]
    simp [validateArgs, h, hlt]

theorem claim_C7_witness :
    (mainModel (fun _ => none) ["git-stat"] = (1, []) ∧
      mainModel (fun _ => none) ["git-stat"] = mainModel (fun _ => some []) ["git-stat"]) ∧
    (mainModel (fun _ => none) ["p", "r", "2023-13-01", "2023-01-02"] = (1, []) ∧
      mainModel (fun _ => none) ["p", "r", "2023-13-01", "2023-01-02"] =
        mainModel (fun _ => some []) ["p", "r", "2023-13-01", "2023-01-02"]) ∧
    validateArgs ["p", "r", "2023-05-05", "2023-05-05"] =
      CliResult.run "r" ⟨2023, 5, 5⟩ ⟨2023, 5, 5⟩ :=
  ⟨claim_C7.1 (fun _ => none) (fun _ => some []) ["git-stat"] (by decide),
   claim_C7.2.1 (fun _ => none) (fun _ => some []) "p" "r" "2023-13-01" "2023-01-02"
     (Or.inl (by decide)),
   claim_C7.2.2 "p" "r" "2023-05-05" ⟨2023, 5, 5⟩ (by decide)⟩

/-- C8: every cell has exactly its column's width (25, 15, 11, 11, 15);
text at least as long as the column is hard-truncated to the width; shorter
text is centered with balanced padding (numeric and header cells) or
left-aligned (date cell); header and active rows join the five cells with
single-character separators. -/
theorem claim_C8 :
    (∀ (t : String) (w : Nat), (centerText t w).length = w ∧ (padText t w).length = w) ∧
    (∀ (t : String) (w : Nat), w ≤ t.length →
        centerText t w = strTake t w ∧ padText t w = strTake t w) ∧
    (∀ (t : String) (w : Nat), t.length < w →
        ∃ l r, centerText t w = spaces l ++ t ++ spaces r ∧
          l + t.length + r = w ∧ l ≤ r ∧ r ≤ l + 1) ∧
    (∀ (t : String) (w : Nat), t.length < w → padText t w = t ++ spaces (w - t.length)) ∧
    (∀ (dr : String) (fc a d tc : Int), tableRowLine dr fc a d tc =
        padText dr 25 ++ "|" ++ centerText (intStr fc) 15 ++ "|" ++
        centerText (intStr a) 11 ++ "|" ++ centerText (intStr d) 11 ++ "|" ++
        centerText (intStr tc) 15) ∧
    (headerLine =
        centerText "Date Range" 25 ++ "|" ++ centerText "Files Changed" 15 ++ "|" ++
        centerText "Additions" 11 ++ "|" ++ centerText "Deletions" 11 ++ "|" ++
        centerText "Total Changes" 15) ∧
    (dateRangeWidth = 25 ∧ filesChangedWidth = 15 ∧ additionsWidth = 11 ∧
      deletionsWidth = 11 ∧ totalChangesWidth = 15) :=
  ⟨fun t w => ⟨centerText_length t w, padText_length t w⟩,
    fun t w h => ⟨centerText_of_ge t w h, padText_of_ge t w h⟩,
    centerText_centered, padText_of_lt,
    fun _ _ _ _ _ => rfl, rfl, rfl, rfl, rfl, rfl, rfl⟩

theorem claim_C8_witness :
    (centerText "abcdefgh" 3 = strTake "abcdefgh" 3 ∧
        padText "abcdefgh" 3 = strTake "abcdefgh" 3) ∧
      padText "ab" 5 = "ab" ++ spaces (5 - ("ab" : String).length) ∧
      (∃ l r, centerText "ab" 5 = spaces l ++ "ab" ++ spaces r ∧
        l + ("ab" : String).length + r = 5 ∧ l ≤ r ∧ r ≤ l + 1) :=
  ⟨claim_C8.2.1 "abcdefgh" 3 (by decide),
    claim_C8.2.2.2.1 "ab" 5 (by decide),
    claim_C8.2.2.1 "ab" 5 (by decide)⟩

/-- C10: header and active rows are 81 visible characters wide
(25 + 15 + 11 + 11 + 15 plus 4 separators); a gap row has the same visible
width once its ANSI color codes are discounted, built from one 25-wide date
cell, a single separator, and one 55-wide merged message cell. -/
theorem claim_C10 :
    headerLine.length = 81 ∧
    (∀ (dr : String) (fc a d tc : Int), (tableRowLine dr fc a d tc).length = 81) ∧
    (∀ (dr : String) (k : Int),
        (noChangeRowLine dr k).length = 81 + 2 * colorOrange.length + 2 * colorReset.length) ∧
    (∀ (dr : String) (k : Int), noChangeRowLine dr k =
        colorOrange ++ padText dr 25 ++ colorReset ++ "|" ++
        colorOrange ++ centerText (gapMessage k) (totalWidth - dateRangeWidth - 1) ++
        colorReset) ∧
    totalWidth - dateRangeWidth - 1 = 55 ∧
    (∀ (dr : String) (k : Int),
        (padText dr 25).length + 1 + (centerText (gapMessage k) 55).length = 81) ∧
    (rowLine (Row.gap 19358 19360 3)).data.count '|' = 1 := by
  refine ⟨by decide, ?_, ?_, fun dr k => rfl, rfl, ?_, by decide⟩
  · intro dr fc a d tc
    simp only [tableRowLine, String.length_append, centerText_length, padText_length,
      sep_length, dateRangeWidth, filesChangedWidth, additionsWidth, deletionsWidth,
      totalChangesWidth]
  · intro dr k
    simp only [noChangeRowLine, String.length_append, centerText_length, padText_length,
      sep_length, colorOrange_length, colorReset_length, dateRangeWidth, totalWidth,
      filesChangedWidth, additionsWidth, deletionsWidth, totalChangesWidth]
  · intro dr k
    simp only [centerText_length, padText_length]


end GitStat
